import Mathlib

/-
  Verification of the ingest-clean-shard pipeline of the CarBuyerAgent
  repository (scripts/download_ch.py and scripts/prepare_hf_dataset.py).

  The pandas DataFrame is embedded as a list of column names together with
  a list of rows, where a row maps a column name to an optional string cell
  (a missing cell, pandas NaN under dtype=str, is none).  Timestamps are
  embedded as natural numbers: the function parse models
  pd.to_datetime(-, errors="coerce") on one cell (none models NaT) and
  toISO models Timestamp.strftime("%Y-%m-%d"); both are parameters, and
  minD and today are the parsed values of min_date and of
  pd.Timestamp.today().normalize().

  The file system seen by download_ch.py is embedded as an association
  list from filename to byte content, and the network as a function from
  filename to the outcome of urlopen plus the outcome of reading the
  response body, so that the order open-destination-then-read-body of the
  source is represented faithfully.
-/

namespace CH

/-- One row of a pandas DataFrame read with dtype=str: a mapping from
column name to an optional string cell (none models NaN). -/
abbrev Row : Type := String → Option String

/-- A pandas DataFrame: its column names and its rows. -/
structure DataFrame where
  cols : List String
  rows : List Row

/-- Boolean-mask row selection, pandas df[mask]: keep the elements of the
list whose corresponding entry of the mask is true. -/
def filterByMask {α : Type} : List α → List Bool → List α
  | [], _ => []
  | _ :: _, [] => []
  | a :: as, b :: bs =>
      if b then a :: filterByMask as bs else filterByMask as bs

/-- Python str() coercion of a possibly missing cell, as performed by
Series.astype(str): a NaN cell becomes the three-character string "nan". -/
def pyStr : Option String → String
  | none => "nan"
  | some s => s

/-- The per-row date mask of clean_dataframe:
(dates >= pd.Timestamp(min_date)) & (dates <= today).  A NaT (a parse
that failed, embedded as none) compares false on both sides. -/
def dateOkB (minD today : Nat) : Option Nat → Bool
  | none => false
  | some d => decide (minD ≤ d ∧ d ≤ today)

/-- The per-row name mask of clean_dataframe:
names.str.len().between(1, max_name_len), both bounds inclusive. -/
def nameOkB (maxLen : Nat) (s : String) : Bool :=
  decide (1 ≤ s.length ∧ s.length ≤ maxLen)

/-- Column assignment df[c] = vals: overwrite the column when it exists,
append it otherwise; cell i of the column becomes vals[i]. -/
def setCol (df : DataFrame) (c : String) (vals : List (Option String)) :
    DataFrame where
  cols := if c ∈ df.cols then df.cols else df.cols ++ [c]
  rows := (df.rows.zip vals).map (fun p => Function.update p.1 c p.2)

/-- The date-validation stage of clean_dataframe (prepare_hf_dataset.py
lines 46-53): when the IncorporationDate column exists, parse it, keep
the rows whose date lies between min_date and today, and set the column
"date" of the kept rows to the parsed date rendered by
strftime("%Y-%m-%d"); when the column is missing, only set "date" to NA
on every row. -/
def dateStep (parse : String → Option Nat) (toISO : Nat → String)
    (minD today : Nat) (df : DataFrame) : DataFrame :=
  if "IncorporationDate" ∈ df.cols then
    let dates := df.rows.map (fun r => (r "IncorporationDate").bind parse)
    let mask := dates.map (dateOkB minD today)
    setCol ⟨df.cols, filterByMask df.rows mask⟩ "date"
      ((filterByMask dates mask).map (fun d => d.map toISO))
  else
    setCol df "date" (df.rows.map (fun _ => none))

/-- The name-validation stage of clean_dataframe (prepare_hf_dataset.py
lines 55-59): when the CompanyName column exists, coerce it to str, keep
the rows whose name length lies in [1, max_name_len], and write the
coerced names back; when the column is missing, do nothing. -/
def nameStep (maxLen : Nat) (df : DataFrame) : DataFrame :=
  if "CompanyName" ∈ df.cols then
    let names := df.rows.map (fun r => pyStr (r "CompanyName"))
    let mask := names.map (nameOkB maxLen)
    setCol ⟨df.cols, filterByMask df.rows mask⟩ "CompanyName"
      ((filterByMask names mask).map some)
  else df

/-- The provenance stage of clean_dataframe: df["source"] = "ch". -/
def sourceStep (df : DataFrame) : DataFrame :=
  setCol df "source" (df.rows.map (fun _ => some "ch"))

/-- clean_dataframe of prepare_hf_dataset.py: the date stage, then the
name stage, then the provenance stamp. -/
def clean_dataframe (parse : String → Option Nat) (toISO : Nat → String)
    (minD today maxLen : Nat) (df : DataFrame) : DataFrame :=
  sourceStep (nameStep maxLen (dateStep parse toISO minD today df))

/-- Python range(start, stop, step) for a positive step. -/
def pyRangeStep (start stop step : Nat) : List Nat :=
  if _h : 0 < step ∧ start < stop then
    start :: pyRangeStep (start + step) stop step
  else []
termination_by stop - start
decreasing_by omega

/-- shard_and_save of prepare_hf_dataset.py, restricted to the rows it
writes: for start in range(0, total, shard_size), the shard holding the
rows start, ..., min(start + shard_size, total) - 1. -/
def shard_and_save {α : Type} (rows : List α) (shardSize : Nat) :
    List (List α) :=
  (pyRangeStep 0 rows.length shardSize).map
    (fun start =>
      (rows.drop start).take (min (start + shardSize) rows.length - start))

/-- Reference chunking of a list into pieces of size S (last piece
holds the remainder), used to state the shard partition property. -/
def chunkList {α : Type} (S : Nat) : List α → List (List α)
  | [] => []
  | a :: as =>
      if 0 < S then (a :: as).take S :: chunkList S (as.drop (S - 1))
      else []
termination_by l => l.length
decreasing_by
  simp only [List.length_drop, List.length_cons]
  omega

/-- One match of the regular expression
BasicCompanyData-(date)-part(N)_(T).zip on the index page, with the
numeric groups already through int(). -/
structure SnapMatch where
  date : String
  part : Nat
  total : Nat

/-- The filename f-string of get_current_snapshot_info:
BasicCompanyData-(date)-part(p)_(total).zip. -/
def snapshotFilename (date : String) (p total : Nat) : String :=
  "BasicCompanyData-" ++ date ++ "-part" ++ toString p ++ "_" ++
    toString total ++ ".zip"

/-- get_current_snapshot_info of download_ch.py.  Its argument is the
outcome of fetching the index page and running re.findall on it: none
models the except-branch (the page could not be fetched), some gives the
match list in document order.  From the first match the function takes
the snapshot date and the declared total part count and generates the
filenames of parts 1..total. -/
def get_current_snapshot_info (scrape : Option (List SnapMatch)) :
    Option String × List String :=
  match scrape with
  | none => (none, [])
  | some [] => (none, [])
  | some (m :: _) =>
      (some m.date,
       (List.range m.total).map
         (fun i => snapshotFilename m.date (i + 1) m.total))

/-- The outcome of reading the whole response body (resp.read()): the
bytes, or a transport failure while the body is being transferred. -/
inductive ReadOutcome where
  | ok (data : List Nat)
  | err
deriving DecidableEq

/-- The outcome of urlopen on one url: an open connection whose body
read has the given outcome, an HTTPError (non-2xx status), or a URLError
at connection time. -/
inductive OpenOutcome where
  | ok (read : ReadOutcome)
  | httpErr (code : Nat)
  | connErr
deriving DecidableEq

/-- The download directory: an association list from filename to byte
content. -/
abbrev FileSystem : Type := List (String × List Nat)

/-- Create or truncate-and-overwrite a file, as open(dest, "wb") plus
the subsequent writes do. -/
def writeFile : FileSystem → String → List Nat → FileSystem
  | [], n, d => [(n, d)]
  | (m, c) :: fs, n, d =>
      if m = n then (m, d) :: fs else (m, c) :: writeFile fs n d

/-- download_file of download_ch.py over the network oracle net.
Returns the reported success flag, the resulting file system, and the
number of urlopen calls made.  The branch order follows the source: the
cache check first; then urlopen (whose connection and HTTP failures are
raised before the destination is opened); then open(dest, "wb"), which
creates the destination as an empty file; then resp.read(), whose
failure is caught with the destination already created. -/
def download_file (net : String → OpenOutcome) (filename : String)
    (fs : FileSystem) : Bool × FileSystem × Nat :=
  if (fs.lookup filename).isSome then (true, fs, 0)
  else
    match net filename with
    | .connErr => (false, fs, 1)
    | .httpErr _ => (false, fs, 1)
    | .ok readRes =>
        let fs1 := writeFile fs filename []
        match readRes with
        | .ok data => (true, writeFile fs1 filename data, 1)
        | .err => (false, fs1, 1)

/-- The first member of a zip archive whose name ends in ".csv",
decoded (read_csv); none when the archive has no csv member.  An archive
is a list of members, each a name paired with its decoded rows. -/
def firstCsvTable {α : Type} (members : List (String × List α)) :
    Option (List α) :=
  match members.filter (fun m => m.1.endsWith ".csv") with
  | [] => none
  | c :: _ => some c.2

/-- load_all_parts of prepare_hf_dataset.py.  The directory is a list of
entries (filename, archive members); glob("*.zip") keeps the zip files,
sorted() orders them by filename (insertion sort is, like Python sorted,
a stable sort of the lexicographic order), each archive contributes the
decoded rows of its first csv member or is skipped, and pd.concat
flattens the contributed tables in order. -/
def load_all_parts {α : Type}
    (dir : List (String × List (String × List α))) : List α :=
  let zips := dir.filter (fun e => e.1.endsWith ".zip")
  let ordered := zips.insertionSort (fun a b => a.1 ≤ b.1)
  (ordered.filterMap (fun e => firstCsvTable e.2)).flatten

/-- A concrete row built from an association list, for witnesses. -/
def mkRow (l : List (String × String)) : Row := fun c => l.lookup c

/-- A concrete date parser for witnesses: it accepts one date string. -/
def parseW : String → Option Nat :=
  fun s => if s = "2001-05-05" then some 50 else none

/-- A concrete strftime rendering for witnesses. -/
def isoW : Nat → String := fun _ => "2001-05-05"

/-- A one-row, one-column table whose single row has a missing
CompanyName cell. -/
def dfNullName : DataFrame := ⟨["CompanyName"], [mkRow []]⟩

section ListLemmas

variable {α : Type} {β : Type} {γ : Type}

theorem filterByMask_map_map (g : α → β) (q : α → Bool) :
    ∀ l : List α,
      filterByMask (l.map g) (l.map q) = (l.filter q).map g := by
  intro l
  induction l with
  | nil => rfl
  | cons a as ih =>
      simp only [List.map_cons, filterByMask, List.filter_cons]
      cases hqa : q a <;> simp [ih]

theorem filterByMask_self (q : α → Bool) (l : List α) :
    filterByMask l (l.map q) = l.filter q := by
  have h := filterByMask_map_map (id : α → α) q l
  simpa using h

theorem zip_map_self (f : α → β) (k : α → β → γ) :
    ∀ l : List α,
      (l.zip (l.map f)).map (fun p => k p.1 p.2)
        = l.map (fun a => k a (f a)) := by
  intro l
  induction l with
  | nil => rfl
  | cons a as ih => simp only [List.map_cons, List.zip_cons_cons, ih]

end ListLemmas

section CleanLemmas

variable (parse : String → Option Nat) (toISO : Nat → String)
variable (minD today maxLen : Nat) (df : DataFrame)

theorem dateStep_rows_of_mem (hc : "IncorporationDate" ∈ df.cols) :
    (dateStep parse toISO minD today df).rows =
      (df.rows.filter
          (fun r => dateOkB minD today ((r "IncorporationDate").bind parse))).map
        (fun r =>
          Function.update r "date"
            (((r "IncorporationDate").bind parse).map toISO)) := by
  rw [dateStep, if_pos hc]
  simp only [setCol, List.map_map, Function.comp_def]
  rw [filterByMask_self, filterByMask_map_map, List.map_map]
  simp only [Function.comp_def]
  exact zip_map_self _ (fun a b => Function.update a "date" b) _

theorem dateStep_rows_of_not_mem (hc : "IncorporationDate" ∉ df.cols) :
    (dateStep parse toISO minD today df).rows =
      df.rows.map (fun r => Function.update r "date" none) := by
  rw [dateStep, if_neg hc]
  simp only [setCol]
  exact zip_map_self _ (fun a b => Function.update a "date" b) _

theorem nameStep_rows_of_mem (hc : "CompanyName" ∈ df.cols) :
    (nameStep maxLen df).rows =
      (df.rows.filter
          (fun r => nameOkB maxLen (pyStr (r "CompanyName")))).map
        (fun r =>
          Function.update r "CompanyName" (some (pyStr (r "CompanyName")))) := by
  rw [nameStep, if_pos hc]
  simp only [setCol, List.map_map, Function.comp_def]
  rw [filterByMask_self, filterByMask_map_map, List.map_map]
  simp only [Function.comp_def]
  exact zip_map_self _ (fun a b => Function.update a "CompanyName" b) _

theorem nameStep_of_not_mem (hc : "CompanyName" ∉ df.cols) :
    nameStep maxLen df = df := by
  rw [nameStep, if_neg hc]

theorem sourceStep_rows :
    (sourceStep df).rows =
      df.rows.map (fun r => Function.update r "source" (some "ch")) := by
  simp only [sourceStep, setCol]
  exact zip_map_self _ (fun a b => Function.update a "source" b) _

end CleanLemmas

/-- Claim C2: on a table that has the IncorporationDate column, the
date-validation stage of clean_dataframe keeps exactly the rows whose
date cell parses to a value between min_date and today (a row whose cell
is absent or unparsable is dropped, since a none never passes the mask),
preserves their order, and sets the "date" cell of every kept row to the
strftime rendering of the parsed value; moreover a row passes the date
mask iff its cell parses to some d with minD ≤ d ≤ today, and
clean_dataframe is this stage followed by the name and provenance
stages. -/
theorem claim_C2_date_filter (parse : String → Option Nat)
    (toISO : Nat → String) (minD today maxLen : Nat) (df : DataFrame)
    (hc : "IncorporationDate" ∈ df.cols) :
    ((dateStep parse toISO minD today df).rows =
      (df.rows.filter
          (fun r => dateOkB minD today ((r "IncorporationDate").bind parse))).map
        (fun r =>
          Function.update r "date"
            (((r "IncorporationDate").bind parse).map toISO)))
  ∧ (∀ r : Row,
      dateOkB minD today ((r "IncorporationDate").bind parse) = true ↔
        ∃ d, (r "IncorporationDate").bind parse = some d ∧
          minD ≤ d ∧ d ≤ today)
  ∧ clean_dataframe parse toISO minD today maxLen df
      = sourceStep (nameStep maxLen (dateStep parse toISO minD today df)) := by
  refine ⟨dateStep_rows_of_mem parse toISO minD today df hc, ?_, rfl⟩
  intro r
  cases hv : (r "IncorporationDate").bind parse with
  | none => simp [dateOkB]
  | some d => simp [dateOkB]

/-- Claim C3: on a table that has the CompanyName column, the
name-validation stage of clean_dataframe keeps exactly the rows whose
str()-coerced name has length in the inclusive range [1, max_name_len];
the mask holds iff the length is in that range, so an empty-string name
is dropped, a name of length exactly max_name_len is kept (max_name_len
being at least 1), and a name of length max_name_len + 1 is dropped. -/
theorem claim_C3_name_filter (maxLen : Nat) (df : DataFrame)
    (hc : "CompanyName" ∈ df.cols) :
    ((nameStep maxLen df).rows =
      (df.rows.filter
          (fun r => nameOkB maxLen (pyStr (r "CompanyName")))).map
        (fun r =>
          Function.update r "CompanyName" (some (pyStr (r "CompanyName")))))
  ∧ (∀ s : String, nameOkB maxLen s = true ↔
      1 ≤ s.length ∧ s.length ≤ maxLen)
  ∧ nameOkB maxLen "" = false
  ∧ (∀ s : String, s.length = maxLen → 1 ≤ maxLen → nameOkB maxLen s = true)
  ∧ (∀ s : String, s.length = maxLen + 1 → nameOkB maxLen s = false) := by
  refine ⟨nameStep_rows_of_mem maxLen df hc, ?_, ?_, ?_, ?_⟩
  · intro s; simp [nameOkB]
  · simp [nameOkB]
  · intro s hs h1; simp [nameOkB, hs, h1]
  · intro s hs; simp [nameOkB, hs]

section CleanShape

variable (parse : String → Option Nat) (toISO : Nat → String)
variable (minD today maxLen : Nat) (df : DataFrame)

theorem dateStep_cols :
    (dateStep parse toISO minD today df).cols =
      if "date" ∈ df.cols then df.cols else df.cols ++ ["date"] := by
  rw [dateStep]; split <;> simp [setCol]

theorem mem_companyName_dateStep :
    "CompanyName" ∈ (dateStep parse toISO minD today df).cols ↔
      "CompanyName" ∈ df.cols := by
  rw [dateStep_cols]
  split
  · exact Iff.rfl
  · constructor
    · intro h
      rcases List.mem_append.mp h with h | h
      · exact h
      · exact absurd (List.mem_singleton.mp h) (by decide)
    · intro h
      exact List.mem_append.mpr (Or.inl h)

theorem dateStep_mem {row : Row}
    (h : row ∈ (dateStep parse toISO minD today df).rows) :
    ∃ r ∈ df.rows, ∃ v : Option String,
      row = Function.update r "date" v := by
  by_cases hc : "IncorporationDate" ∈ df.cols
  · rw [dateStep_rows_of_mem parse toISO minD today df hc] at h
    obtain ⟨r, hr, hrow⟩ := List.mem_map.mp h
    exact ⟨r, (List.mem_filter.mp hr).1, _, hrow.symm⟩
  · rw [dateStep_rows_of_not_mem parse toISO minD today df hc] at h
    obtain ⟨r, hr, hrow⟩ := List.mem_map.mp h
    exact ⟨r, hr, none, hrow.symm⟩

theorem nameStep_mem_of_mem {row : Row} (hc : "CompanyName" ∈ df.cols)
    (h : row ∈ (nameStep maxLen df).rows) :
    ∃ r ∈ df.rows,
      row = Function.update r "CompanyName"
        (some (pyStr (r "CompanyName"))) := by
  rw [nameStep_rows_of_mem maxLen df hc] at h
  obtain ⟨r, hr, hrow⟩ := List.mem_map.mp h
  exact ⟨r, (List.mem_filter.mp hr).1, hrow.symm⟩

theorem sourceStep_length : (sourceStep df).rows.length = df.rows.length := by
  rw [sourceStep_rows, List.length_map]

theorem nameStep_length_le :
    (nameStep maxLen df).rows.length ≤ df.rows.length := by
  by_cases hc : "CompanyName" ∈ df.cols
  · rw [nameStep_rows_of_mem maxLen df hc, List.length_map]
    exact List.length_filter_le _ _
  · rw [nameStep_of_not_mem maxLen df hc]

theorem dateStep_length_le :
    (dateStep parse toISO minD today df).rows.length ≤ df.rows.length := by
  by_cases hc : "IncorporationDate" ∈ df.cols
  · rw [dateStep_rows_of_mem parse toISO minD today df hc, List.length_map]
    exact List.length_filter_le _ _
  · rw [dateStep_rows_of_not_mem parse toISO minD today df hc,
      List.length_map]

end CleanShape

/-- Claim C9: when the input table has no IncorporationDate column, the
date stage of clean_dataframe drops no row (row counts are equal), and in
the full clean_dataframe output the "date" cell of every row is NA.  The
degrade path is the else-branch of the column-membership test inside
dateStep; no configuration flag occurs in the definition. -/
theorem claim_C9_missing_date_column (parse : String → Option Nat)
    (toISO : Nat → String) (minD today maxLen : Nat) (df : DataFrame)
    (hc : "IncorporationDate" ∉ df.cols) :
    (dateStep parse toISO minD today df).rows.length = df.rows.length
  ∧ ∀ row ∈ (clean_dataframe parse toISO minD today maxLen df).rows,
      row "date" = none := by
  constructor
  · rw [dateStep_rows_of_not_mem parse toISO minD today df hc,
      List.length_map]
  · intro row hrow
    rw [clean_dataframe, sourceStep_rows] at hrow
    obtain ⟨r1, hr1, hrow_eq⟩ := List.mem_map.mp hrow
    rw [← hrow_eq,
      Function.update_noteq (show ("date" : String) ≠ "source" by decide)]
    by_cases hcn : "CompanyName" ∈ (dateStep parse toISO minD today df).cols
    · obtain ⟨r2, hr2, h12⟩ :=
        nameStep_mem_of_mem maxLen (dateStep parse toISO minD today df)
          hcn hr1
      rw [h12,
        Function.update_noteq
          (show ("date" : String) ≠ "CompanyName" by decide)]
      rw [dateStep_rows_of_not_mem parse toISO minD today df hc] at hr2
      obtain ⟨r, _, hreq⟩ := List.mem_map.mp hr2
      rw [← hreq, Function.update_same]
    · rw [nameStep_of_not_mem maxLen _ hcn,
        dateStep_rows_of_not_mem parse toISO minD today df hc] at hr1
      obtain ⟨r, _, hreq⟩ := List.mem_map.mp hr1
      rw [← hreq, Function.update_same]

/-- Claim C10: on a table with a CompanyName column, a row whose
CompanyName cell is absent is kept by the name filter (for any
max_name_len of at least 3, which the default 80 satisfies): astype(str)
coerces the missing value to the three-character string "nan", whose
length passes between(1, max_name_len), and the output row's CompanyName
cell holds exactly some "nan". -/
theorem claim_C10_null_name_coerced (maxLen : Nat) (df : DataFrame)
    (h3 : 3 ≤ maxLen) (hc : "CompanyName" ∈ df.cols) (r : Row)
    (hr : r ∈ df.rows) (hnull : r "CompanyName" = none) :
    Function.update r "CompanyName" (some "nan") ∈ (nameStep maxLen df).rows
  ∧ Function.update r "CompanyName" (some "nan") "CompanyName"
      = some "nan" := by
  refine ⟨?_, Function.update_same _ _ _⟩
  rw [nameStep_rows_of_mem maxLen df hc]
  refine List.mem_map.mpr ⟨r, List.mem_filter.mpr ⟨hr, ?_⟩, ?_⟩
  · rw [hnull]
    show nameOkB maxLen (pyStr none) = true
    rw [show pyStr none = "nan" from rfl]
    rw [nameOkB, show ("nan" : String).length = 3 from rfl]
    simp only [decide_eq_true_eq]
    exact ⟨by omega, h3⟩
  · rw [hnull]; rfl

/-- Claim C4 as stated is false on the code: a surviving row with an
absent CompanyName cell has that pre-existing field rewritten from NA to
the string "nan" by astype(str), so the output row does not equal any
input row extended with only the two derived fields.  Concretely, on the
one-row table whose single row has a missing CompanyName, the cleaned
output row has CompanyName = some "nan" while the input row has none
there. -/
theorem claim_C4_counterexample :
    ¬ ∀ row ∈ (clean_dataframe parseW isoW 10 100 80 dfNullName).rows,
        ∃ r ∈ dfNullName.rows,
          ∀ c, c ≠ "date" → c ≠ "source" → row c = r c := by
  intro h
  have hne : (clean_dataframe parseW isoW 10 100 80 dfNullName).rows ≠ [] := by
    intro he
    have hlen :
        (clean_dataframe parseW isoW 10 100 80 dfNullName).rows.length
          = 1 := rfl
    rw [he] at hlen
    simp at hlen
  obtain ⟨r, hr, hcc⟩ := h _ (List.head_mem hne)
  have hr' : r = mkRow [] := List.mem_singleton.mp hr
  have h1 := hcc "CompanyName" (by decide) (by decide)
  have h2 :
      (clean_dataframe parseW isoW 10 100 80 dfNullName).rows.head hne
        "CompanyName" = some "nan" := rfl
  rw [hr', h2, show mkRow [] "CompanyName" = none from rfl] at h1
  exact Option.noConfusion h1

/-- Claim C4, amended: clean_dataframe's output has at most as many rows
as the input, and every output row arises from some input row with the
two derived fields "date" and "source" set (the "source" cell holds
some "ch"), every other pre-existing field unmutated EXCEPT CompanyName,
which, when the column exists, is rewritten to the astype(str) coercion
of its original value (so a missing name becomes some "nan"); when the
CompanyName column does not exist, that field too is unmutated. -/
theorem claim_C4_amended (parse : String → Option Nat)
    (toISO : Nat → String) (minD today maxLen : Nat) (df : DataFrame) :
    (clean_dataframe parse toISO minD today maxLen df).rows.length
      ≤ df.rows.length
  ∧ ∀ row ∈ (clean_dataframe parse toISO minD today maxLen df).rows,
      ∃ r ∈ df.rows,
        row "source" = some "ch"
      ∧ (∀ c, c ≠ "date" → c ≠ "source" → c ≠ "CompanyName" →
          row c = r c)
      ∧ ("CompanyName" ∈ df.cols →
          row "CompanyName" = some (pyStr (r "CompanyName")))
      ∧ ("CompanyName" ∉ df.cols → row "CompanyName" = r "CompanyName") := by
  constructor
  · calc (clean_dataframe parse toISO minD today maxLen df).rows.length
        = (nameStep maxLen (dateStep parse toISO minD today df)).rows.length :=
          sourceStep_length _
      _ ≤ (dateStep parse toISO minD today df).rows.length :=
          nameStep_length_le maxLen _
      _ ≤ df.rows.length := dateStep_length_le parse toISO minD today df
  · intro row hrow
    rw [clean_dataframe, sourceStep_rows] at hrow
    obtain ⟨r1, hr1, hrow_eq⟩ := List.mem_map.mp hrow
    by_cases hcn : "CompanyName" ∈ df.cols
    · have hcn' :
          "CompanyName" ∈ (dateStep parse toISO minD today df).cols :=
        (mem_companyName_dateStep parse toISO minD today df).mpr hcn
      obtain ⟨r2, hr2, h12⟩ :=
        nameStep_mem_of_mem maxLen (dateStep parse toISO minD today df)
          hcn' hr1
      obtain ⟨r, hr, v, h2r⟩ :=
        dateStep_mem parse toISO minD today df hr2
      refine ⟨r, hr, ?_, ?_, ?_, fun hne => absurd hcn hne⟩
      · rw [← hrow_eq]; exact Function.update_same _ _ _
      · intro c hcd hcs hcc
        rw [← hrow_eq, Function.update_noteq hcs, h12,
          Function.update_noteq hcc, h2r, Function.update_noteq hcd]
      · intro _
        rw [← hrow_eq,
          Function.update_noteq
            (show ("CompanyName" : String) ≠ "source" by decide),
          h12, Function.update_same, h2r,
          Function.update_noteq
            (show ("CompanyName" : String) ≠ "date" by decide)]
    · have hcn' :
          "CompanyName" ∉ (dateStep parse toISO minD today df).cols :=
        fun h =>
          hcn ((mem_companyName_dateStep parse toISO minD today df).mp h)
      rw [nameStep_of_not_mem maxLen _ hcn'] at hr1
      obtain ⟨r, hr, v, h1r⟩ :=
        dateStep_mem parse toISO minD today df hr1
      refine ⟨r, hr, ?_, ?_, fun h => absurd h hcn, ?_⟩
      · rw [← hrow_eq]; exact Function.update_same _ _ _
      · intro c hcd hcs hcc
        rw [← hrow_eq, Function.update_noteq hcs, h1r,
          Function.update_noteq hcd]
      · intro _
        rw [← hrow_eq,
          Function.update_noteq
            (show ("CompanyName" : String) ≠ "source" by decide),
          h1r,
          Function.update_noteq
            (show ("CompanyName" : String) ≠ "date" by decide)]

section ShardLemmas

variable {α : Type}

theorem pyRangeStep_eq_range (S : Nat) (hS : 0 < S) (len : Nat) :
    ∀ a, pyRangeStep a len S =
      (List.range ((len - a + S - 1) / S)).map (fun i => a + i * S) := by
  have main : ∀ (m a : Nat), len - a ≤ m →
      pyRangeStep a len S =
        (List.range ((len - a + S - 1) / S)).map (fun i => a + i * S) := by
    intro m
    induction m with
    | zero =>
        intro a ha
        rw [pyRangeStep, dif_neg (by omega), Nat.div_eq_of_lt (by omega),
          List.range_zero, List.map_nil]
    | succ m ih =>
        intro a ha
        by_cases hal : a < len
        · rw [pyRangeStep, dif_pos ⟨hS, hal⟩, ih (a + S) (by omega)]
          have hn : (len - a + S - 1) / S
              = (len - (a + S) + S - 1) / S + 1 := by
            by_cases hle : a + S < len
            · rw [show len - a + S - 1 = len - (a + S) + S - 1 + S by omega,
                Nat.add_div_right _ hS]
            · rw [Nat.div_eq_of_lt (show len - (a + S) + S - 1 < S by omega),
                show len - a + S - 1 = len - a - 1 + S * 1 by omega,
                Nat.add_mul_div_left _ _ hS,
                Nat.div_eq_of_lt (show len - a - 1 < S by omega)]
          rw [hn, List.range_succ_eq_map, List.map_cons, List.map_map]
          congr 1
          · omega
          · apply List.map_congr_left
            intro i _
            simp only [Function.comp_apply, Nat.succ_eq_add_one]
            have he : (i + 1) * S = i * S + S := by ring
            omega
        · rw [pyRangeStep, dif_neg (by omega), Nat.div_eq_of_lt (by omega),
            List.range_zero, List.map_nil]
  exact fun a => main (len - a) a le_rfl

theorem shard_and_save_eq (S : Nat) (hS : 0 < S) (l : List α) :
    shard_and_save l S =
      (List.range ((l.length + S - 1) / S)).map
        (fun i =>
          (l.drop (i * S)).take (min (i * S + S) l.length - i * S)) := by
  rw [shard_and_save, pyRangeStep_eq_range S hS l.length 0, List.map_map,
    Nat.sub_zero]
  apply List.map_congr_left
  intro i _
  simp only [Function.comp_apply, Nat.zero_add]

theorem shard_and_save_eq_chunkList (S : Nat) (hS : 0 < S) :
    ∀ l : List α, shard_and_save l S = chunkList S l := by
  have main : ∀ (m : Nat) (l : List α), l.length ≤ m →
      shard_and_save l S = chunkList S l := by
    intro m
    induction m with
    | zero =>
        intro l hl
        have h0 : l = [] := List.eq_nil_of_length_eq_zero (by omega)
        subst h0
        rw [shard_and_save_eq S hS]
        simp [chunkList, Nat.div_eq_of_lt (show S - 1 < S by omega)]
    | succ m ih =>
        intro l hl
        cases l with
        | nil =>
            rw [shard_and_save_eq S hS]
            simp [chunkList, Nat.div_eq_of_lt (show S - 1 < S by omega)]
        | cons a as =>
            have hl' : as.length + 1 ≤ m + 1 := by simpa using hl
            rw [chunkList, if_pos hS]
            have hdrop : as.drop (S - 1) = (a :: as).drop S := by
              conv_rhs => rw [show S = S - 1 + 1 by omega]
              rw [List.drop_succ_cons]
            rw [hdrop,
              ← ih ((a :: as).drop S)
                (by rw [List.length_drop, List.length_cons]; omega)]
            rw [shard_and_save_eq S hS, shard_and_save_eq S hS,
              List.length_drop]
            have hn : ((a :: as).length + S - 1) / S
                = ((a :: as).length - S + S - 1) / S + 1 := by
              have hL : 0 < (a :: as).length := by simp
              by_cases hle : S < (a :: as).length
              · rw [show (a :: as).length + S - 1
                    = (a :: as).length - S + S - 1 + S by omega,
                  Nat.add_div_right _ hS]
              · rw [Nat.div_eq_of_lt
                    (show (a :: as).length - S + S - 1 < S by omega),
                  show (a :: as).length + S - 1
                    = (a :: as).length - 1 + S * 1 by omega,
                  Nat.add_mul_div_left _ _ hS,
                  Nat.div_eq_of_lt (show (a :: as).length - 1 < S by omega)]
            rw [hn, List.range_succ_eq_map, List.map_cons, List.map_map]
            congr 1
            · simp only [Nat.zero_mul, List.drop_zero, Nat.zero_add,
                Nat.sub_zero]
              rw [List.take_eq_take]
              omega
            · apply List.map_congr_left
              intro i _
              simp only [Function.comp_apply, Nat.succ_eq_add_one]
              rw [List.drop_drop]
              have he : (i + 1) * S = i * S + S := by ring
              rw [show (i + 1) * S = S + i * S by omega]
              congr 1
              omega
  exact fun l => main l.length l le_rfl

theorem chunkList_flatten (S : Nat) (hS : 0 < S) :
    ∀ l : List α, (chunkList S l).flatten = l := by
  have main : ∀ (m : Nat) (l : List α), l.length ≤ m →
      (chunkList S l).flatten = l := by
    intro m
    induction m with
    | zero =>
        intro l hl
        have h0 : l = [] := List.eq_nil_of_length_eq_zero (by omega)
        subst h0
        simp [chunkList]
    | succ m ih =>
        intro l hl
        cases l with
        | nil => simp [chunkList]
        | cons a as =>
            have hl' : as.length + 1 ≤ m + 1 := by simpa using hl
            rw [chunkList, if_pos hS]
            have hdrop : as.drop (S - 1) = (a :: as).drop S := by
              conv_rhs => rw [show S = S - 1 + 1 by omega]
              rw [List.drop_succ_cons]
            rw [List.flatten_cons, hdrop,
              ih ((a :: as).drop S)
                (by rw [List.length_drop, List.length_cons]; omega)]
            exact List.take_append_drop S (a :: as)
  exact fun l => main l.length l le_rfl

/-- The ceiling division (len + S - 1) / S in terms of len / S and
len % S. -/
theorem ceilDivOf (S len : Nat) (hS : 0 < S) (hlen : 0 < len) :
    (len + S - 1) / S =
      if len % S = 0 then len / S else len / S + 1 := by
  have hdm : S * (len / S) + len % S = len := Nat.div_add_mod len S
  have hdm' : len / S * S + len % S = len := by rw [mul_comm] at hdm; exact hdm
  have hrlt : len % S < S := Nat.mod_lt _ hS
  by_cases hr : len % S = 0
  · rw [if_pos hr,
      show len + S - 1 = S - 1 + S * (len / S) by omega,
      Nat.add_mul_div_left _ _ hS,
      Nat.div_eq_of_lt (show S - 1 < S by omega)]
    omega
  · rw [if_neg hr,
      show len + S - 1 = len % S - 1 + S * (len / S + 1) by
        have he : S * (len / S + 1) = S * (len / S) + S := by ring
        omega,
      Nat.add_mul_div_left _ _ hS,
      Nat.div_eq_of_lt (show len % S - 1 < S by omega)]
    omega

end ShardLemmas

/-- Claim C1: for every table of R rows and every shard size S > 0,
shard_and_save produces exactly ceil(R / S) shards (written as the
natural-number ceiling (R + S - 1) / S); every shard other than the last
has exactly S rows; the last shard has R mod S rows, or S when R mod S
is 0; no shard is empty (in particular there is no trailing empty
shard); and the concatenation of the shards in index order is exactly
the input table, so the shards are contiguous row ranges in order. -/
theorem claim_C1_shard_partition {α : Type} (rows : List α) (S : Nat)
    (hS : 0 < S) :
    (shard_and_save rows S).length = (rows.length + S - 1) / S
  ∧ (∀ i, i + 1 < (shard_and_save rows S).length →
      ((shard_and_save rows S).getD i []).length = S)
  ∧ (rows ≠ [] →
      ((shard_and_save rows S).getD
          ((shard_and_save rows S).length - 1) []).length
        = if rows.length % S = 0 then S else rows.length % S)
  ∧ (∀ c ∈ shard_and_save rows S, c ≠ [])
  ∧ (shard_and_save rows S).flatten = rows := by
  have hlen : (shard_and_save rows S).length = (rows.length + S - 1) / S := by
    rw [shard_and_save_eq S hS, List.length_map, List.length_range]
  have hgd : ∀ i, i < (rows.length + S - 1) / S →
      (shard_and_save rows S).getD i []
        = (rows.drop (i * S)).take
            (min (i * S + S) rows.length - i * S) := by
    intro i hi
    rw [shard_and_save_eq S hS,
      List.getD_eq_getElem _ _ (by simpa using hi)]
    simp
  refine ⟨hlen, ?_, ?_, ?_, ?_⟩
  · intro i hi
    rw [hlen] at hi
    rw [hgd i (by omega), List.length_take, List.length_drop]
    have h3 : (i + 2) * S ≤ rows.length + S - 1 :=
      (Nat.le_div_iff_mul_le hS).mp (by omega)
    have hexp : (i + 2) * S = i * S + S + S := by ring
    omega
  · intro hne
    have hL : 0 < rows.length := List.length_pos.mpr hne
    set N := (rows.length + S - 1) / S with hN
    have hN1 : 1 ≤ N := by
      rw [hN]
      exact (Nat.le_div_iff_mul_le hS).mpr (by omega)
    have hupper : rows.length ≤ N * S := by
      by_contra h
      have h1 : (N + 1) * S ≤ rows.length + S - 1 := by
        have hexp : (N + 1) * S = N * S + S := by ring
        omega
      have h2 : N + 1 ≤ N := (Nat.le_div_iff_mul_le hS).mpr h1
      omega
    have hexp2 : N * S = (N - 1) * S + S := by
      have h1 : N - 1 + 1 = N := by omega
      calc N * S = (N - 1 + 1) * S := by rw [h1]
        _ = (N - 1) * S + S := by ring
    have hlower : (N - 1) * S < rows.length := by
      by_contra h
      have h1 : (rows.length + S - 1) / S < N :=
        (Nat.div_lt_iff_lt_mul hS).mpr (by omega)
      omega
    rw [hlen, hgd (N - 1) (by omega), List.length_take, List.length_drop]
    have hdm : S * (rows.length / S) + rows.length % S = rows.length :=
      Nat.div_add_mod rows.length S
    have hrlt : rows.length % S < S := Nat.mod_lt _ hS
    have hceil := ceilDivOf S rows.length hS hL
    by_cases hr : rows.length % S = 0
    · rw [if_pos hr]
      rw [if_pos hr] at hceil
      have hq1 : 1 ≤ rows.length / S := by
        rcases Nat.eq_zero_or_pos (rows.length / S) with h | h
        · rw [h] at hdm; omega
        · exact h
      have hA : (N - 1) * S + S = S * (rows.length / S) := by
        have he : N = rows.length / S := by omega
        have h1 : N - 1 + 1 = N := by omega
        calc (N - 1) * S + S = (N - 1 + 1) * S := by ring
          _ = N * S := by rw [h1]
          _ = S * (rows.length / S) := by rw [he, mul_comm]
      omega
    · rw [if_neg hr]
      rw [if_neg hr] at hceil
      have hA : (N - 1) * S = S * (rows.length / S) := by
        have he : N - 1 = rows.length / S := by omega
        rw [he, mul_comm]
      omega
  · intro c hc
    rw [shard_and_save_eq S hS] at hc
    obtain ⟨i, hi, hceq⟩ := List.mem_map.mp hc
    have hiN : i < (rows.length + S - 1) / S := List.mem_range.mp hi
    have h3 : (i + 1) * S ≤ rows.length + S - 1 :=
      (Nat.le_div_iff_mul_le hS).mp (by omega)
    have hexp : (i + 1) * S = i * S + S := by ring
    have hpos : 0 < c.length := by
      rw [← hceq, List.length_take, List.length_drop]
      omega
    exact List.ne_nil_of_length_pos hpos
  · rw [shard_and_save_eq_chunkList S hS]
    exact chunkList_flatten S hS rows

/-- Witness for claim C1 at a concrete input: five rows and shard size
two give shards of sizes two, two, one whose concatenation is the
input. -/
theorem claim_C1_witness :
    (shard_and_save [0, 1, 2, 3, 4] 2).length = (5 + 2 - 1) / 2
  ∧ (∀ i, i + 1 < (shard_and_save [0, 1, 2, 3, 4] 2).length →
      ((shard_and_save [0, 1, 2, 3, 4] 2).getD i []).length = 2)
  ∧ ([0, 1, 2, 3, 4] ≠ ([] : List Nat) →
      ((shard_and_save [0, 1, 2, 3, 4] 2).getD
          ((shard_and_save [0, 1, 2, 3, 4] 2).length - 1) []).length
        = if 5 % 2 = 0 then 2 else 5 % 2)
  ∧ (∀ c ∈ shard_and_save [0, 1, 2, 3, 4] 2, c ≠ [])
  ∧ (shard_and_save [0, 1, 2, 3, 4] 2).flatten = [0, 1, 2, 3, 4] := by
  have h := claim_C1_shard_partition [0, 1, 2, 3, 4] 2 (by decide)
  simpa using h

theorem lookup_writeFile (fs : FileSystem) (n : String) (d : List Nat) :
    (writeFile fs n d).lookup n = some d := by
  induction fs with
  | nil => simp [writeFile, List.lookup]
  | cons p fs ih =>
      obtain ⟨m, c⟩ := p
      by_cases hm : m = n
      · subst hm
        simp [writeFile, List.lookup]
      · have hnm : (n == m) = false :=
          beq_eq_false_iff_ne.mpr (fun h => hm h.symm)
        simp [writeFile, hm, List.lookup, hnm, ih]

/-- A network oracle on which urlopen succeeds with status 2xx but the
connection drops while the response body is being read. -/
def dropNet : String → OpenOutcome := fun _ => .ok .err

/-- Claim C5 describes intended behaviour the code does not have: when
urlopen succeeds but the body read fails (a transport failure on an
uncached file), download_file reports failure, yet the destination file
is present in the cache as a zero-byte file, because open(dest, "wb") runs
before resp.read(); the claim requires the file to be absent.  A later
invocation then treats the corrupt empty file as a cache hit and
reports success for it. -/
theorem claim_C5_read_failure_leaves_empty_file :
    download_file dropNet "BasicCompanyData-2024-06-01-part1_3.zip" []
      = (false, [("BasicCompanyData-2024-06-01-part1_3.zip", [])], 1)
  ∧ (List.lookup "BasicCompanyData-2024-06-01-part1_3.zip"
        (download_file dropNet
          "BasicCompanyData-2024-06-01-part1_3.zip" []).2.1).isSome
      = true
  ∧ download_file dropNet "BasicCompanyData-2024-06-01-part1_3.zip"
        [("BasicCompanyData-2024-06-01-part1_3.zip", [])]
      = (true, [("BasicCompanyData-2024-06-01-part1_3.zip", [])], 0) :=
  ⟨rfl, rfl, rfl⟩

/-- Claim C6: if the file already exists in the cache directory,
download_file returns success at once, changes nothing and performs no
urlopen call; and when the file is uncached and the first invocation
succeeds, that invocation performs exactly one urlopen call and the
second invocation is a pure cache hit (success, no change, no call). -/
theorem claim_C6_idempotent_fetch (net : String → OpenOutcome)
    (f : String) (fs : FileSystem) :
    (∀ d, fs.lookup f = some d → download_file net f fs = (true, fs, 0))
  ∧ (fs.lookup f = none → (download_file net f fs).1 = true →
      (download_file net f fs).2.2 = 1
    ∧ download_file net f (download_file net f fs).2.1
        = (true, (download_file net f fs).2.1, 0)) := by
  constructor
  · intro d hd
    rw [download_file, if_pos (by rw [hd]; rfl)]
  · intro h0 h1
    have hcond : ¬((fs.lookup f).isSome = true) := by rw [h0]; simp
    cases hnet : net f with
    | connErr =>
        rw [download_file, if_neg hcond, hnet] at h1
        exact absurd h1 (by simp)
    | httpErr code =>
        rw [download_file, if_neg hcond, hnet] at h1
        exact absurd h1 (by simp)
    | ok readRes =>
        cases readRes with
        | err =>
            rw [download_file, if_neg hcond, hnet] at h1
            exact absurd h1 (by simp)
        | ok data =>
            have hres : download_file net f fs
                = (true, writeFile (writeFile fs f []) f data, 1) := by
              rw [download_file, if_neg hcond, hnet]
            rw [hres]
            refine ⟨rfl, ?_⟩
            show download_file net f (writeFile (writeFile fs f []) f data)
                = (true, writeFile (writeFile fs f []) f data, 0)
            rw [download_file, if_pos (by rw [lookup_writeFile]; rfl)]

/-- A network oracle on which every fetch succeeds, for the witness. -/
def okNet : String → OpenOutcome := fun _ => .ok (.ok [7])

/-- Witness for claim C6 at a concrete input: an uncached file fetched
twice over a succeeding network. -/
theorem claim_C6_witness :
    (download_file okNet "a.zip" []).2.2 = 1
  ∧ download_file okNet "a.zip" (download_file okNet "a.zip" []).2.1
      = (true, (download_file okNet "a.zip" []).2.1, 0) :=
  (claim_C6_idempotent_fetch okNet "a.zip" []).2 rfl rfl

/-- Claim C7: when the index page yields at least one match of the
multi-part pattern, the locator returns the snapshot date of the first
match together with exactly total-parts filenames, the i-th naming part
i + 1 of that total for that date; when the page cannot be fetched or
yields no match, it returns no date and an empty file list. -/
theorem claim_C7_multipart_locator (m : SnapMatch)
    (rest : List SnapMatch) :
    (get_current_snapshot_info (some (m :: rest))).1 = some m.date
  ∧ (get_current_snapshot_info (some (m :: rest))).2.length = m.total
  ∧ (∀ i, i < m.total →
      (get_current_snapshot_info (some (m :: rest))).2.getD i ""
        = snapshotFilename m.date (i + 1) m.total)
  ∧ get_current_snapshot_info none = (none, [])
  ∧ get_current_snapshot_info (some []) = (none, []) := by
  have h2 : (get_current_snapshot_info (some (m :: rest))).2
      = (List.range m.total).map
          (fun i => snapshotFilename m.date (i + 1) m.total) := rfl
  refine ⟨rfl, ?_, ?_, rfl, rfl⟩
  · rw [h2, List.length_map, List.length_range]
  · intro i hi
    rw [h2, List.getD_eq_getElem _ _ (by simpa using hi)]
    simp

/-- The first match on an index page advertising a three-part snapshot
dated 2024-06-01, for the witness. -/
def snapW : SnapMatch := ⟨"2024-06-01", 1, 3⟩

/-- Witness for claim C7 at a concrete input: the third descriptor of a
three-part snapshot names part 3 of 3. -/
theorem claim_C7_witness :
    (get_current_snapshot_info (some [snapW])).2.getD 2 ""
      = snapshotFilename "2024-06-01" 3 3 :=
  (claim_C7_multipart_locator snapW []).2.2.1 2 (by decide)

/-- Claim C8: on a directory listing already sorted by filename, the
loader equals: keep the ".zip" files in order, take from each archive
the decoded first ".csv" member (skipping archives with none), and
concatenate the tables in that order; and when no archive has a csv
member the result is the empty table.  On an arbitrary listing the
definition first sorts by filename (a stable sort, as Python sorted), so
the sorted case exhibits the processing order. -/
theorem claim_C8_loader (α : Type)
    (dir : List (String × List (String × List α)))
    (hsorted : List.Sorted (fun a b => a.1 ≤ b.1) dir) :
    load_all_parts dir
      = ((dir.filter (fun e => e.1.endsWith ".zip")).filterMap
          (fun e => firstCsvTable e.2)).flatten
  ∧ ((∀ e ∈ dir, e.2.filter (fun p => p.1.endsWith ".csv") = []) →
      load_all_parts dir = []) := by
  have hsf : List.Sorted
      (fun a b : String × List (String × List α) => a.1 ≤ b.1)
      (dir.filter (fun e => e.1.endsWith ".zip")) :=
    List.Pairwise.filter _ hsorted
  have h1 : load_all_parts dir
      = ((dir.filter (fun e => e.1.endsWith ".zip")).filterMap
          (fun e => firstCsvTable e.2)).flatten := by
    simp only [load_all_parts]
    rw [List.Sorted.insertionSort_eq hsf]
  refine ⟨h1, ?_⟩
  intro hall
  rw [h1]
  have hnil : (dir.filter (fun e => e.1.endsWith ".zip")).filterMap
      (fun e => firstCsvTable e.2) = [] := by
    rw [List.filterMap_eq_nil_iff]
    intro e he
    rw [firstCsvTable, hall e (List.mem_filter.mp he).1]
  rw [hnil]
  rfl

/-- A two-archive cache directory, sorted by filename, for the
witness. -/
def dirW : List (String × List (String × List Nat)) :=
  [("a.zip", [("q.csv", [1, 2])]),
   ("b.zip", [("x.txt", [9]), ("r.csv", [3, 4])])]

/-- Witness for claim C8 at a concrete input. -/
theorem claim_C8_witness :
    load_all_parts dirW
      = ((dirW.filter (fun e => e.1.endsWith ".zip")).filterMap
          (fun e => firstCsvTable e.2)).flatten :=
  (claim_C8_loader Nat dirW (by
    refine List.Pairwise.cons ?_ (List.pairwise_singleton _ _)
    intro b hb
    rw [List.mem_singleton] at hb
    subst hb
    show ("a.zip" : String) ≤ "b.zip"
    rw [String.le_iff_toList_le]
    decide)).1

/-- A two-row table with an IncorporationDate column: one parsable
in-range date and one missing date, for the witness. -/
def dfW2 : DataFrame :=
  ⟨["IncorporationDate"],
   [mkRow [("IncorporationDate", "2001-05-05")], mkRow []]⟩

/-- Witness for claim C2 at a concrete input. -/
theorem claim_C2_witness :
    (dateStep parseW isoW 10 100 dfW2).rows =
      (dfW2.rows.filter
          (fun r =>
            dateOkB 10 100 ((r "IncorporationDate").bind parseW))).map
        (fun r =>
          Function.update r "date"
            (((r "IncorporationDate").bind parseW).map isoW)) :=
  (claim_C2_date_filter parseW isoW 10 100 80 dfW2 (by decide)).1

/-- A two-row table with a CompanyName column, for the witness. -/
def dfW3 : DataFrame :=
  ⟨["CompanyName"],
   [mkRow [("CompanyName", "Acme")], mkRow [("CompanyName", "")]]⟩

/-- Witness for claim C3 at a concrete input. -/
theorem claim_C3_witness :
    (nameStep 80 dfW3).rows =
      (dfW3.rows.filter
          (fun r => nameOkB 80 (pyStr (r "CompanyName")))).map
        (fun r =>
          Function.update r "CompanyName"
            (some (pyStr (r "CompanyName")))) :=
  (claim_C3_name_filter 80 dfW3 (by decide)).1

/-- Witness for claim C9 at a concrete input: a table without an
IncorporationDate column loses no rows in the date stage. -/
theorem claim_C9_witness :
    (dateStep parseW isoW 10 100 dfW3).rows.length = dfW3.rows.length :=
  (claim_C9_missing_date_column parseW isoW 10 100 80 dfW3 (by decide)).1

/-- Witness for claim C10 at a concrete input: the one-row table whose
row has a missing CompanyName keeps that row, with the name coerced to
"nan". -/
theorem claim_C10_witness :
    Function.update (mkRow []) "CompanyName" (some "nan")
      ∈ (nameStep 80 dfNullName).rows :=
  (claim_C10_null_name_coerced 80 dfNullName (by decide) (by decide)
    (mkRow []) (List.mem_singleton.mpr rfl) rfl).1

/-- Witness for the amended claim C4 at a concrete input. -/
theorem claim_C4_amended_witness :
    (clean_dataframe parseW isoW 10 100 80 dfW2).rows.length
      ≤ dfW2.rows.length :=
  (claim_C4_amended parseW isoW 10 100 80 dfW2).1

end CH
